import Mathlib

/-!
Verification of the translation job lifecycle subsystem of Easy-BabelDOC
(`src/backend/main.py`): the task registry, the translation orchestrator
(`run_translation`), the file-backed history store (`load_history`,
`save_history`, `add_to_history`), the listing endpoint
(`list_translations`) and the reconciliation/cleanup endpoint
(`cleanup_files`).

The Python code is shallowly embedded: dictionaries become structures with
optional fields, the global mutable maps become explicit state threaded
through the functions, the engine's asynchronous event stream becomes a
list of events optionally terminated by an exception, and file-system
effects become explicit parameters (an existence/size view, a per-path
unlink outcome, or a trace of file operations).
-/

namespace EasyBabelDOC

/-- The `result` object stored on a completed task by `run_translation`
(main.py lines 338-343): `mono_pdf_path`/`dual_pdf_path` are `str(...)` or
`None`, and `total_seconds`/`peak_memory_usage` default to `0`. -/
structure ResultOut where
  mono_pdf_path : Option String
  dual_pdf_path : Option String
  total_seconds : Int
  peak_memory_usage : Int
deriving DecidableEq, Repr

/-- The engine's `translate_result` object consumed with `getattr(result,
field, default)` (main.py lines 331-342); every attribute may be absent. -/
structure TranslateResult where
  mono_pdf_path : Option String
  dual_pdf_path : Option String
  total_seconds : Option Int
  peak_memory_usage : Option Int
deriving DecidableEq, Repr

/-- A task record, as the dictionary created at submission (main.py lines
289-300) and mutated by `run_translation`.  Fields the program only sets
later (`message`, `result`, `error`, `end_time`) are optional. -/
structure TaskRecord where
  task_id : String
  status : String
  filename : String
  source_lang : String
  target_lang : String
  model : String
  start_time : String
  progress : Int
  stage : String
  message : Option String
  result : Option ResultOut
  error : Option String
  end_time : Option String
deriving DecidableEq, Repr

/-- One event of the engine stream (spec section 6, consumed in main.py
lines 316-355).  Fields are optional because the code reads them with
`event.get(key, default)`. -/
inductive Event where
  | progress_update (overall_progress : Option Int) (stage : Option String) (message : Option String)
  | finish (translate_result : TranslateResult)
  | error (error : Option String)
deriving DecidableEq, Repr

def Event.isProgress : Event → Bool
  | .progress_update _ _ _ => true
  | _ => false

/-! ## History store (`load_history`, `add_to_history`, main.py 157-210) -/

/-- State of the backing file `translation_history.json`: missing, present
but not parseable by `json.load`, or a well-formed entry array. -/
inductive HistFile where
  | missing
  | corrupt (raw : String)
  | wellFormed (entries : List TaskRecord)
deriving DecidableEq, Repr

def HistFile.fileExists : HistFile → Bool
  | .missing => false
  | .corrupt _ => true
  | .wellFormed _ => true

/-- `json.load` on the backing file: raises (returns `.error`) when the
file is missing or its contents cannot be parsed. -/
def json_load : HistFile → Except String (List TaskRecord)
  | .missing => .error "FileNotFoundError"
  | .corrupt _ => .error "JSONDecodeError"
  | .wellFormed entries => .ok entries

/-- `load_history` (main.py 157-165): if the file exists, try to parse it
and swallow any parse error into `[]`; if it does not exist, return `[]`. -/
def load_history (f : HistFile) : List TaskRecord :=
  if f.fileExists then
    match json_load f with
    | .ok entries => entries
    | .error _ => []
  else []

/-- The scan-and-replace loop of `add_to_history` (main.py 203-209):
replace the first entry whose `task_id` matches, else append. -/
def upsertEntry (history : List TaskRecord) (task_data : TaskRecord) : List TaskRecord :=
  match history with
  | [] => [task_data]
  | item :: rest =>
    if item.task_id = task_data.task_id then task_data :: rest
    else item :: upsertEntry rest task_data

/-- `add_to_history` (main.py 199-210): load the history, upsert the
record, save the result (a successful save yields a well-formed file). -/
def add_to_history (f : HistFile) (task_data : TaskRecord) : HistFile :=
  .wellFormed (upsertEntry (load_history f) task_data)

/-! ## `save_history` as a trace of file operations (main.py 183-196)

`save_history` opens `HISTORY_FILE` itself with mode `'w'` (which
truncates the file on open) and dumps the serialized collection into it.
To reason about what a concurrent reader of the backing file can observe,
the body is embedded as the sequence of file operations it performs. -/

def HISTORY_FILE : String := "translation_history.json"

inductive FileOp where
  | openTrunc (path : String)
  | writeData (path : String) (data : String)
  | closeFile (path : String)
  | rename (src : String) (tgt : String)
deriving DecidableEq, Repr

/-- File operations performed by `save_history` for a serialized payload
`data` (main.py 190-191): `open(HISTORY_FILE, 'w')` truncates the target
in place, then `json.dump` writes into it.  No temporary file and no
rename/replace appears. -/
def save_history_ops (data : String) : List FileOp :=
  [FileOp.openTrunc HISTORY_FILE, FileOp.writeData HISTORY_FILE data, FileOp.closeFile HISTORY_FILE]

/-- Effect of one file operation on the file system (path to contents). -/
def applyOp (fs : String → Option String) : FileOp → String → Option String
  | .openTrunc p => fun q => if q = p then some "" else fs q
  | .writeData p d => fun q => if q = p then some ((fs p).getD "" ++ d) else fs q
  | .closeFile _ => fs
  | .rename s t => fun q => if q = t then fs s else if q = s then none else fs q

def runOps (fs : String → Option String) (ops : List FileOp) : String → Option String :=
  ops.foldl applyOp fs

/-- The write discipline the specification claims for every persistence of
the history collection: the payload goes to a fresh temporary file which
is then renamed over the target, and the target itself is never opened
for truncating write. -/
def writesViaTempThenReplace (ops : List FileOp) (target : String) : Prop :=
  (∃ tmp, tmp ≠ target ∧ FileOp.rename tmp target ∈ ops) ∧ FileOp.openTrunc target ∉ ops

/-! ## Orchestrator state and `run_translation` (main.py 313-372)

The global mutable state touched by `run_translation` becomes an explicit
`ServerState`: `active` is the `active_translations` dictionary, `histFile`
the backing history file, `clients` the key set of `connected_clients`, and
`sent` the log of events pushed to WebSocket clients.  The engine stream
is a list of events optionally followed by an exception (`exn`): the events
are those consumed before the stream ended or raised.  `datetime.now()` is
an input `now`. -/

structure ServerState where
  active : String → Option TaskRecord
  histFile : HistFile
  clients : String → Bool
  sent : List (String × Event)

def setActive (st : ServerState) (tid : String) (rec : TaskRecord) : ServerState :=
  { st with active := fun k => if k = tid then some rec else st.active k }

/-- `add_to_history(active_translations[task_id])` performed on the state. -/
def persistRecord (st : ServerState) (rec : TaskRecord) : ServerState :=
  { st with histFile := add_to_history st.histFile rec }

/-- Best-effort WebSocket notification (main.py 358-362): only when a
client is connected for this task; send failures are swallowed. -/
def notifyClient (st : ServerState) (tid : String) (e : Event) : ServerState :=
  if st.clients tid then { st with sent := st.sent ++ [(tid, e)] } else st

/-- Python truthiness of an optional string path followed by `str(...)`:
`str(mono_path) if mono_path else None` (main.py 339-340). `None` and the
empty string are falsy. -/
def strIfTruthy : Option String → Option String
  | none => none
  | some s => if s = "" then none else some s

/-- The per-event-type update applied to the task record (main.py 319-353).
`progress_update` merges progress/stage/message with the `.get` defaults of
the code; `finish` sets the terminal completed fields, building `result`
with `getattr(..., default)` defaults; `error` sets the terminal error
fields with the `"未知错误"` default. -/
def applyEventToRecord (now : String) (rec : TaskRecord) (e : Event) : TaskRecord :=
  match e with
  | .progress_update p stg m =>
    { rec with
      progress := p.getD 0
      stage := stg.getD "处理中"
      message := some (m.getD "") }
  | .finish r =>
    { rec with
      status := "completed"
      progress := 100
      stage := "完成"
      result := some
        { mono_pdf_path := strIfTruthy r.mono_pdf_path
          dual_pdf_path := strIfTruthy r.dual_pdf_path
          total_seconds := r.total_seconds.getD 0
          peak_memory_usage := r.peak_memory_usage.getD 0 }
      end_time := some now }
  | .error err =>
    { rec with
      status := "error"
      error := some (err.getD "未知错误")
      end_time := some now }

/-- One iteration of the `async for` loop of `run_translation` (main.py
316-362).  Everything — the record update, the history upsert and the
WebSocket notification — is guarded by `if task_id in active_translations`.
Each of the three event branches updates the registry entry and upserts it
into the history; the notification happens for every event. -/
def step (now tid : String) (st : ServerState) (e : Event) : ServerState :=
  match st.active tid with
  | none => st
  | some rec =>
    let rec1 := applyEventToRecord now rec e
    notifyClient (persistRecord (setActive st tid rec1) rec1) tid e

def runEvents (now tid : String) (st : ServerState) (events : List Event) : ServerState :=
  events.foldl (step now tid) st

/-- The `except Exception` handler of `run_translation` (main.py 364-372):
if the task is still tracked, force the error terminal fields and persist. -/
def handleExn (now tid msg : String) (st : ServerState) : ServerState :=
  match st.active tid with
  | none => st
  | some rec =>
    let rec1 := { rec with status := "error", error := some msg, end_time := some now }
    persistRecord (setActive st tid rec1) rec1

/-- `run_translation` (main.py 313-372): consume the events the engine
produced; if the stream then raised an exception with description `msg`
(`exn = some msg`), run the handler. -/
def run_translation (now tid : String) (events : List Event) (exn : Option String) (st : ServerState) : ServerState :=
  let st1 := runEvents now tid st events
  match exn with
  | none => st1
  | some msg => handleExn now tid msg st1

/-- Status of the job `tid` as visible in the registry. -/
def statusAfter (st : ServerState) (tid : String) : Option String :=
  (st.active tid).map TaskRecord.status

/-- Status of the job after each prefix of the consumed events. -/
def statusTraceAux (now tid : String) : ServerState → List Event → List (Option String)
  | st, [] => [statusAfter st tid]
  | st, e :: es => statusAfter st tid :: statusTraceAux now tid (step now tid st e) es

/-- The full status trace of one `run_translation` run: the status after
every prefix of the consumed events, and, when the stream raised, the
status after the exception handler. -/
def statusTrace (now tid : String) (events : List Event) (exn : Option String) (st : ServerState) : List (Option String) :=
  statusTraceAux now tid st events ++
    (match exn with
     | none => []
     | some msg => [statusAfter (handleExn now tid msg (runEvents now tid st events)) tid])

/-- Allowed adjacent status pair per the specification's state machine:
either unchanged, or a transition from `running` to a terminal state. -/
def okStep (s s' : Option String) : Prop :=
  s' = s ∨ (s = some "running" ∧ (s' = some "completed" ∨ s' = some "error"))

instance : DecidableRel okStep := fun s s' =>
  decidable_of_iff (s' = s ∨ (s = some "running" ∧ (s' = some "completed" ∨ s' = some "error")))
    Iff.rfl

/-- Number of actual status changes along a trace. -/
def numChanges (l : List (Option String)) : Nat :=
  (l.zip l.tail).countP (fun p => decide (p.1 ≠ p.2))

/-! ## Listing endpoint `list_translations` (main.py 489-522)

The filesystem is a view `fsize : String → Option Nat` giving the size of
each existing file. -/

/-- The `file_status` dictionary attached to each listed task. -/
structure FileStatus where
  mono_exists : Bool
  dual_exists : Bool
  mono_size : Nat
  dual_size : Nat
deriving DecidableEq, Repr

/-- A history entry with its computed `file_status` (main.py 519). -/
structure ListedTask where
  task : TaskRecord
  file_status : FileStatus
deriving DecidableEq, Repr

/-- Existence and size of one optional result path: `if path and
Path(path).exists()` (Python truthiness on the path string). -/
def pathStat (fsize : String → Option Nat) (p : Option String) : Bool × Nat :=
  match strIfTruthy p with
  | some q =>
    match fsize q with
    | some n => (true, n)
    | none => (false, 0)
  | none => (false, 0)

/-- `file_status` computation of main.py 499-517: all-false/0 unless the
task is `completed` and carries a truthy `result`. -/
def computeFileStatus (fsize : String → Option Nat) (task : TaskRecord) : FileStatus :=
  if task.status = "completed" then
    match task.result with
    | some res =>
      let mono := pathStat fsize res.mono_pdf_path
      let dual := pathStat fsize res.dual_pdf_path
      { mono_exists := mono.1, dual_exists := dual.1, mono_size := mono.2, dual_size := dual.2 }
    | none => { mono_exists := false, dual_exists := false, mono_size := 0, dual_size := 0 }
  else { mono_exists := false, dual_exists := false, mono_size := 0, dual_size := 0 }

/-- `list_translations` (main.py 489-522): load the history, attach
`file_status` to every task, and return the result of
`sorted(history, key=lambda x: x.get('start_time', ''), reverse=True)` —
a stable sort, most-recent-first by `start_time`. -/
def list_translations (fsize : String → Option Nat) (f : HistFile) : List ListedTask :=
  let history := load_history f
  let annotated := history.map (fun task => { task := task, file_status := computeFileStatus fsize task })
  annotated.mergeSort (fun a b => decide (b.task.start_time ≤ a.task.start_time))

/-! ## Cleanup endpoint `cleanup_files` (main.py 567-703)

The filesystem enters as the list `existing` of PDF paths found under the
outputs directory, an existence view `fsExists`, and a per-path `unlink`
outcome classifying what `file_path.unlink()` does. -/

structure CleanupRequest where
  delete_orphan_files : Bool
  delete_orphan_records : Bool
deriving DecidableEq, Repr

/-- Outcome of `Path.unlink()` on one path. -/
inductive UnlinkOutcome where
  | ok
  | permissionDenied (msg : String)
  | fileMissing (msg : String)
  | otherFailure (msg : String)
deriving DecidableEq, Repr

def UnlinkOutcome.isOk : UnlinkOutcome → Bool
  | .ok => true
  | _ => false

/-- An element of the report's `errors`/`warnings` lists. -/
structure ReportItem where
  type : String
  file : String
  message : String
  detail : Option String
deriving DecidableEq, Repr

/-- An element of the report's `orphan_records` list (main.py 639-644). -/
structure OrphanRecord where
  task_id : String
  filename : String
  mono_missing : Bool
  dual_missing : Bool
deriving DecidableEq, Repr

structure CleanupReport where
  orphan_files : List String
  orphan_records : List OrphanRecord
  deleted_files : Nat
  deleted_records : Nat
  errors : List ReportItem
  warnings : List ReportItem
deriving DecidableEq, Repr

/-- `Path.name`: the final component of a path. -/
def pathName (p : String) : String :=
  ((p.splitOn "/").getLast?).getD p

/-- All result paths referenced by the history (main.py 591-600): for each
task with a truthy `result`, its truthy `mono_pdf_path`/`dual_pdf_path`. -/
def historyFilePaths (history : List TaskRecord) : List String :=
  history.foldl
    (fun acc task =>
      match task.result with
      | none => acc
      | some res =>
        let acc1 := match strIfTruthy res.mono_pdf_path with
          | some p => acc ++ [p]
          | none => acc
        match strIfTruthy res.dual_pdf_path with
        | some p => acc1 ++ [p]
        | none => acc1)
    []

/-- Orphan-record detection for one task (main.py 628-644): a completed
task with a truthy `result` one of whose truthy paths no longer exists. -/
def orphanRecordOf (fsExists : String → Bool) (task : TaskRecord) : Option OrphanRecord :=
  if task.status = "completed" then
    match task.result with
    | some res =>
      let monoMissing :=
        match strIfTruthy res.mono_pdf_path with
        | some p => !fsExists p
        | none => false
      let dualMissing :=
        match strIfTruthy res.dual_pdf_path with
        | some p => !fsExists p
        | none => false
      if monoMissing || dualMissing then
        some { task_id := task.task_id, filename := task.filename,
               mono_missing := monoMissing, dual_missing := dualMissing }
      else none
    | none => none
  else none

/-- The body of the orphan-file deletion loop (main.py 652-687): attempt
`unlink`, increment `deleted_files` on success, classify a
`PermissionError` as a `permission_error` item in `errors`, a
`FileNotFoundError` as a `file_not_found` item in `warnings`, and any
other exception as an `unknown_error` item in `errors`; never abort. -/
def deleteStep (unlink : String → UnlinkOutcome) (rep : CleanupReport) (p : String) : CleanupReport :=
  match unlink p with
  | .ok => { rep with deleted_files := rep.deleted_files + 1 }
  | .permissionDenied _ =>
    { rep with errors := rep.errors ++
        [{ type := "permission_error", file := p,
           message := "文件被占用无法删除: " ++ pathName p, detail := none }] }
  | .fileMissing _ =>
    { rep with warnings := rep.warnings ++
        [{ type := "file_not_found", file := p,
           message := "文件已不存在: " ++ pathName p, detail := none }] }
  | .otherFailure msg =>
    { rep with errors := rep.errors ++
        [{ type := "unknown_error", file := p,
           message := "删除文件时发生未知错误: " ++ pathName p, detail := some msg }] }

/-- `cleanup_files` (main.py 571-703).  Orphan files are the scanned files
not referenced by the history (the Python set difference, in scan order);
orphan records are completed records with a missing artifact.  When
requested, orphan files are deleted one by one through `deleteStep`, and
orphan records are removed from the history in one batch write.  Returns
the report and the resulting history file. -/
def cleanup_files (req : CleanupRequest) (f : HistFile) (existing : List String)
    (fsExists : String → Bool) (unlink : String → UnlinkOutcome) :
    CleanupReport × HistFile :=
  let history := load_history f
  let historyFiles := historyFilePaths history
  let orphanFiles := existing.filter (fun p => decide (p ∉ historyFiles))
  let orphanRecords := history.filterMap (orphanRecordOf fsExists)
  let base : CleanupReport :=
    { orphan_files := orphanFiles, orphan_records := orphanRecords,
      deleted_files := 0, deleted_records := 0, errors := [], warnings := [] }
  let rep1 := if req.delete_orphan_files then orphanFiles.foldl (deleteStep unlink) base else base
  if req.delete_orphan_records then
    let idsToDelete := orphanRecords.map OrphanRecord.task_id
    if idsToDelete.isEmpty then (rep1, f)
    else
      let updated := history.filter (fun task => decide (task.task_id ∉ idsToDelete))
      ({ rep1 with deleted_records := idsToDelete.length }, .wellFormed updated)
  else (rep1, f)

/-! ## Helper lemmas: orchestrator -/

theorem step_not_tracked (now tid : String) (st : ServerState) (e : Event)
    (h : st.active tid = none) : step now tid st e = st := by
  unfold step
  rw [h]

theorem active_step_some (now tid : String) (st : ServerState) (e : Event) (rec : TaskRecord)
    (h : st.active tid = some rec) :
    (step now tid st e).active tid = some (applyEventToRecord now rec e) := by
  unfold step notifyClient persistRecord setActive
  rw [h]
  simp only []
  split <;> simp

theorem runEvents_not_tracked (now tid : String) (events : List Event) (st : ServerState)
    (h : st.active tid = none) : runEvents now tid st events = st := by
  induction events generalizing st with
  | nil => rfl
  | cons e es ih =>
    unfold runEvents at *
    rw [List.foldl_cons, step_not_tracked now tid st e h]
    exact ih st h

theorem handleExn_not_tracked (now tid msg : String) (st : ServerState)
    (h : st.active tid = none) : handleExn now tid msg st = st := by
  unfold handleExn
  rw [h]

theorem active_handleExn_some (now tid msg : String) (st : ServerState) (rec : TaskRecord)
    (h : st.active tid = some rec) :
    (handleExn now tid msg st).active tid =
      some { rec with status := "error", error := some msg, end_time := some now } := by
  unfold handleExn persistRecord setActive
  rw [h]
  simp

theorem active_runEvents_isSome (now tid : String) (events : List Event) (st : ServerState)
    (h : (st.active tid).isSome) : ((runEvents now tid st events).active tid).isSome := by
  induction events generalizing st with
  | nil => exact h
  | cons e es ih =>
    unfold runEvents at *
    rw [List.foldl_cons]
    apply ih
    cases hrec : st.active tid with
    | none => rw [step_not_tracked now tid st e hrec]; exact h
    | some rec => rw [active_step_some now tid st e rec hrec]; rfl

theorem statusAfter_step_progress (now tid : String) (st : ServerState) (e : Event)
    (hp : e.isProgress = true) :
    statusAfter (step now tid st e) tid = statusAfter st tid := by
  cases e with
  | progress_update p stg m =>
    cases hrec : st.active tid with
    | none => rw [step_not_tracked now tid st _ hrec]
    | some rec =>
      unfold statusAfter
      rw [active_step_some now tid st _ rec hrec, hrec]
      rfl
  | finish r => simp [Event.isProgress] at hp
  | error err => simp [Event.isProgress] at hp

/-- A run of progress-only events leaves the record's `status`, `result`
and `error` fields unchanged (only progress/stage/message are merged). -/
theorem runEvents_progress_fields (now tid : String) (es : List Event) (st : ServerState)
    (rec : TaskRecord) (hp : ∀ e ∈ es, e.isProgress = true) (h : st.active tid = some rec) :
    ∃ rec2, (runEvents now tid st es).active tid = some rec2 ∧
      rec2.status = rec.status ∧ rec2.result = rec.result ∧ rec2.error = rec.error := by
  induction es generalizing st rec with
  | nil => exact ⟨rec, h, rfl, rfl, rfl⟩
  | cons e es ih =>
    have hpe := hp e (List.mem_cons_self e es)
    cases e with
    | progress_update p stg m =>
      have h1 := active_step_some now tid st (.progress_update p stg m) rec h
      unfold runEvents at *
      rw [List.foldl_cons]
      obtain ⟨rec2, h2, hs, hr, he2⟩ :=
        ih _ (applyEventToRecord now rec (.progress_update p stg m))
          (fun e he => hp e (List.mem_cons_of_mem _ he)) h1
      exact ⟨rec2, h2, hs, hr, he2⟩
    | finish r => simp [Event.isProgress] at hpe
    | error err => simp [Event.isProgress] at hpe

theorem statusTrace_cons_eq (now tid : String) (e : Event) (es : List Event)
    (exn : Option String) (st : ServerState) :
    statusTrace now tid (e :: es) exn st =
      statusAfter st tid :: statusTrace now tid es exn (step now tid st e) := by
  cases exn <;> simp [statusTrace, statusTraceAux, runEvents]

theorem statusTrace_head (now tid : String) (events : List Event) (exn : Option String)
    (st : ServerState) :
    ∃ rest, statusTrace now tid events exn st = statusAfter st tid :: rest := by
  cases events with
  | nil => cases exn <;> exact ⟨_, rfl⟩
  | cons e es => cases exn <;> exact ⟨_, rfl⟩

/-! ## Helper lemmas: status changes along a trace -/

theorem numChanges_nil : numChanges [] = 0 := rfl

theorem numChanges_single (a : Option String) : numChanges [a] = 0 := rfl

theorem numChanges_cons_cons (a b : Option String) (l : List (Option String)) :
    numChanges (a :: b :: l) = numChanges (b :: l) + (if a = b then 0 else 1) := by
  unfold numChanges
  simp only [List.tail_cons, List.zip_cons_cons, List.countP_cons]
  by_cases h : a = b <;> simp [h]

theorem chain_okStep_const (s : Option String) (hs : ¬ s = some "running")
    (l : List (Option String)) (h : List.Chain' okStep (s :: l)) :
    numChanges (s :: l) = 0 := by
  induction l with
  | nil => rfl
  | cons b l ih =>
    rw [List.chain'_cons] at h
    obtain ⟨hab, h2⟩ := h
    have hb : b = s := by
      cases hab with
      | inl hh => exact hh
      | inr hh => exact absurd hh.1 hs
    subst hb
    rw [numChanges_cons_cons]
    simp [ih h2]

theorem chain_okStep_changes_le_one (l : List (Option String))
    (h : List.Chain' okStep l) : numChanges l ≤ 1 := by
  induction l with
  | nil => simp [numChanges_nil]
  | cons a l ih =>
    cases l with
    | nil => simp [numChanges_single]
    | cons b l2 =>
      rw [List.chain'_cons] at h
      obtain ⟨hab, h2⟩ := h
      rw [numChanges_cons_cons]
      by_cases hba : a = b
      · simpa [hba] using ih h2
      · cases hab with
        | inl hh => exact absurd hh.symm hba
        | inr hh =>
          have hbnr : ¬ b = some "running" := by
            cases hh.2 with
            | inl hb => rw [hb]; intro hcon; simp at hcon
            | inr hb => rw [hb]; intro hcon; simp at hcon
          rw [chain_okStep_const b hbnr l2 h2]
          simp [hba]

/-- Core induction for the status state machine: over a stream whose
non-final events are all progress updates, and where an exception can only
follow a stream with no terminal event, every adjacent pair of the status
trace is an allowed transition. -/
theorem chain_statusTrace (now tid : String) (pus tl : List Event) (exn : Option String)
    (st : ServerState)
    (hrun : statusAfter st tid = some "running")
    (hpus : ∀ e ∈ pus, e.isProgress = true)
    (htl : tl = [] ∨ (∃ t, tl = [t] ∧ exn = none)) :
    List.Chain' okStep (statusTrace now tid (pus ++ tl) exn st) := by
  induction pus generalizing st with
  | nil =>
    rw [List.nil_append]
    rcases htl with h1 | ⟨t, h1, h2⟩
    · subst h1
      cases exn with
      | none => simp [statusTrace, statusTraceAux]
      | some msg =>
        obtain ⟨rec, hrec⟩ : ∃ rec, st.active tid = some rec := by
          cases hact : st.active tid with
          | none => rw [statusAfter, hact] at hrun; simp at hrun
          | some rec => exact ⟨rec, rfl⟩
        have hstat : rec.status = "running" := by
          rw [statusAfter, hrec] at hrun
          simpa using hrun
        have hafter : statusAfter (handleExn now tid msg (runEvents now tid st [])) tid
            = some "error" := by
          show statusAfter (handleExn now tid msg st) tid = some "error"
          rw [statusAfter, active_handleExn_some now tid msg st rec hrec]
          rfl
        simp only [statusTrace, statusTraceAux, List.singleton_append, hafter]
        rw [List.chain'_cons]
        exact ⟨Or.inr ⟨hrun, Or.inr rfl⟩, List.chain'_singleton _⟩
    · subst h1; subst h2
      rw [statusTrace_cons_eq]
      obtain ⟨rec, hrec⟩ : ∃ rec, st.active tid = some rec := by
        cases hact : st.active tid with
        | none => rw [statusAfter, hact] at hrun; simp at hrun
        | some rec => exact ⟨rec, rfl⟩
      have hstep := active_step_some now tid st t rec hrec
      cases t with
      | progress_update p stg m =>
        have heq : statusAfter (step now tid st (.progress_update p stg m)) tid
            = statusAfter st tid := statusAfter_step_progress now tid st _ rfl
        simp only [statusTrace, statusTraceAux, List.append_nil]
        rw [List.chain'_cons]
        exact ⟨Or.inl heq, List.chain'_singleton _⟩
      | finish r =>
        have heq : statusAfter (step now tid st (.finish r)) tid = some "completed" := by
          rw [statusAfter, hstep]; rfl
        simp only [statusTrace, statusTraceAux, List.append_nil]
        rw [List.chain'_cons]
        exact ⟨Or.inr ⟨hrun, Or.inl heq⟩, List.chain'_singleton _⟩
      | error err =>
        have heq : statusAfter (step now tid st (.error err)) tid = some "error" := by
          rw [statusAfter, hstep]; rfl
        simp only [statusTrace, statusTraceAux, List.append_nil]
        rw [List.chain'_cons]
        exact ⟨Or.inr ⟨hrun, Or.inr heq⟩, List.chain'_singleton _⟩
  | cons e es ih =>
    have hpe := hpus e (List.mem_cons_self e es)
    rw [List.cons_append, statusTrace_cons_eq]
    have hrun' : statusAfter (step now tid st e) tid = some "running" := by
      rw [statusAfter_step_progress now tid st e hpe]; exact hrun
    have hchain := ih (step now tid st e) hrun' (fun x hx => hpus x (List.mem_cons_of_mem _ hx))
    obtain ⟨rest, hrest⟩ := statusTrace_head now tid (es ++ tl) exn (step now tid st e)
    rw [hrest] at hchain ⊢
    rw [List.chain'_cons]
    refine ⟨Or.inl ?_, hchain⟩
    rw [hrun', hrun]

/-! ## Concrete sample data for counterexamples and witnesses -/

/-- A `translate_result` as the engine delivers on `finish`. -/
def sampleResult : TranslateResult :=
  { mono_pdf_path := some "outputs/mono.pdf", dual_pdf_path := none,
    total_seconds := some 3, peak_memory_usage := none }

/-- A freshly submitted task record, as built in main.py 289-300. -/
def sampleRecord : TaskRecord :=
  { task_id := "j1", status := "running", filename := "f.pdf", source_lang := "en",
    target_lang := "zh", model := "gpt-4o-mini", start_time := "2024-01-01T00:00:00",
    progress := 0, stage := "初始化", message := none, result := none, error := none,
    end_time := none }

/-- Server state tracking the single running job `j1`. -/
def sampleState : ServerState :=
  { active := fun k => if k = "j1" then some sampleRecord else none,
    histFile := .wellFormed [sampleRecord],
    clients := fun _ => false,
    sent := [] }

/-- Server state tracking the single running job `j2` (same shape as
`sampleState`, separate concrete input for a separate claim). -/
def sampleState2 : ServerState :=
  { active := fun k => if k = "j2" then some { sampleRecord with task_id := "j2" } else none,
    histFile := .wellFormed [{ sampleRecord with task_id := "j2" }],
    clients := fun _ => false,
    sent := [] }

/-- State with no tracked jobs at all. -/
def emptyState : ServerState :=
  { active := fun _ => none,
    histFile := .wellFormed [],
    clients := fun _ => false,
    sent := [] }

/-! ## C1 -/

/-- C1 (counterexample): `run_translation` has no terminal-state guard.  If
the engine stream delivers an `error` event after a `finish` event, the
status trace is `running, completed, error`: the job leaves the terminal
state `completed`, so the claimed transition discipline is violated. -/
theorem status_leaves_terminal_on_late_event :
    statusTrace "t1" "j1" [Event.finish sampleResult, Event.error none] none sampleState =
        [some "running", some "completed", some "error"] ∧
      ¬ List.Chain' okStep
        (statusTrace "t1" "j1" [Event.finish sampleResult, Event.error none] none sampleState) := by
  have heq : statusTrace "t1" "j1" [Event.finish sampleResult, Event.error none] none sampleState
      = [some "running", some "completed", some "error"] := by decide
  refine ⟨heq, ?_⟩
  rw [heq, List.chain'_cons, List.chain'_cons]
  rintro ⟨-, h2, -⟩
  rcases h2 with h | ⟨h, -⟩
  · exact absurd h (by decide)
  · exact absurd h (by decide)

/-- C1 (amended): over any engine stream in which every event before the
last is a `progress_update` (so a terminal `finish`/`error` event can only
be the final event) and in which an exception can only occur if no
terminal event was delivered, the status of a job that starts `running`
transitions only `running → completed` or `running → error`, that
transition happens at most once, and no transition leaves a terminal
state (every adjacent status pair is `okStep`). -/
theorem status_machine_wellformed_stream (now tid : String) (pus tl : List Event)
    (exn : Option String) (st : ServerState)
    (hrun : statusAfter st tid = some "running")
    (hpus : ∀ e ∈ pus, e.isProgress = true)
    (htl : tl = [] ∨ (∃ t, tl = [t] ∧ exn = none)) :
    List.Chain' okStep (statusTrace now tid (pus ++ tl) exn st) ∧
      numChanges (statusTrace now tid (pus ++ tl) exn st) ≤ 1 := by
  have hchain := chain_statusTrace now tid pus tl exn st hrun hpus htl
  exact ⟨hchain, chain_okStep_changes_le_one _ hchain⟩

/-- C1 (witness): the amended theorem applied to job `j1` of `sampleState`
and the stream `progress_update 10; finish`. -/
theorem status_machine_wellformed_stream_witness :
    List.Chain' okStep
        (statusTrace "t1" "j1"
          ([Event.progress_update (some 10) none none] ++ [Event.finish sampleResult])
          none sampleState) ∧
      numChanges
        (statusTrace "t1" "j1"
          ([Event.progress_update (some 10) none none] ++ [Event.finish sampleResult])
          none sampleState) ≤ 1 :=
  status_machine_wellformed_stream "t1" "j1"
    [Event.progress_update (some 10) none none] [Event.finish sampleResult] none sampleState
    (by decide) (by decide) (Or.inr ⟨Event.finish sampleResult, rfl, rfl⟩)

/-! ## C2 -/

/-- C2 (counterexample): after the stream `finish; error`, the job's
record has `status = "error"` while `result` is still present (and `error`
is present as well): `result` is not present iff `status = completed`, and
`result`/`error` are not mutually exclusive. -/
theorem result_present_with_error_status :
    ∃ rec', (run_translation "t1" "j1" [Event.finish sampleResult, Event.error none] none
        sampleState).active "j1" = some rec' ∧
      rec'.status = "error" ∧ rec'.result.isSome = true ∧ rec'.error.isSome = true := by
  refine ⟨_, rfl, ?_, ?_, ?_⟩ <;> decide

/-- C2 (amended): over any engine stream in which every event before the
last is a `progress_update` and an exception can only occur if no terminal
event was delivered, a job that starts `running` with no `result` and no
`error` ends with `result` present iff `status = completed`, `error`
present iff `status = error`, and never both. -/
theorem result_error_exclusive_wellformed_stream (now tid : String) (pus tl : List Event)
    (exn : Option String) (st : ServerState) (rec : TaskRecord)
    (htr : st.active tid = some rec)
    (hrun : rec.status = "running") (hres : rec.result = none) (herr : rec.error = none)
    (hpus : ∀ e ∈ pus, e.isProgress = true)
    (htl : tl = [] ∨ (∃ t, tl = [t] ∧ exn = none)) :
    ∃ rec', (run_translation now tid (pus ++ tl) exn st).active tid = some rec' ∧
      (rec'.result.isSome ↔ rec'.status = "completed") ∧
      (rec'.error.isSome ↔ rec'.status = "error") ∧
      ¬ (rec'.result.isSome ∧ rec'.error.isSome) := by
  obtain ⟨rec2, h2, hs2, hr2, he2⟩ := runEvents_progress_fields now tid pus st rec hpus htr
  rcases htl with h1 | ⟨t, h1, h2exn⟩
  · subst h1
    rw [List.append_nil]
    cases exn with
    | none =>
      refine ⟨rec2, h2, ?_, ?_, ?_⟩ <;>
        simp [hs2, hr2, he2, hres, herr, hrun]
    | some msg =>
      refine ⟨{ rec2 with status := "error", error := some msg, end_time := some now },
        active_handleExn_some now tid msg (runEvents now tid st pus) rec2 h2, ?_, ?_, ?_⟩
      · simp [hr2, hres]
      · simp
      · simp [hr2, hres]
  · subst h1; subst h2exn
    have hstep := active_step_some now tid (runEvents now tid st pus) t rec2 h2
    have hrunfold : run_translation now tid (pus ++ [t]) none st
        = step now tid (runEvents now tid st pus) t := by
      simp [run_translation, runEvents, List.foldl_append]
    cases t with
    | progress_update p stg m =>
      refine ⟨applyEventToRecord now rec2 (.progress_update p stg m),
        by rw [hrunfold]; exact hstep, ?_, ?_, ?_⟩ <;>
        simp [applyEventToRecord, hs2, hr2, he2, hres, herr, hrun]
    | finish r =>
      refine ⟨applyEventToRecord now rec2 (.finish r),
        by rw [hrunfold]; exact hstep, ?_, ?_, ?_⟩ <;>
        simp [applyEventToRecord, he2, herr]
    | error err =>
      refine ⟨applyEventToRecord now rec2 (.error err),
        by rw [hrunfold]; exact hstep, ?_, ?_, ?_⟩ <;>
        simp [applyEventToRecord, hr2, hres]

/-- C2 (witness): the amended theorem applied to job `j1` of `sampleState`
and the stream `progress_update 10; finish`. -/
theorem result_error_exclusive_wellformed_stream_witness :
    ∃ rec', (run_translation "t1" "j1"
        ([Event.progress_update (some 10) none none] ++ [Event.finish sampleResult]) none
        sampleState).active "j1" = some rec' ∧
      (rec'.result.isSome ↔ rec'.status = "completed") ∧
      (rec'.error.isSome ↔ rec'.status = "error") ∧
      ¬ (rec'.result.isSome ∧ rec'.error.isSome) :=
  result_error_exclusive_wellformed_stream "t1" "j1"
    [Event.progress_update (some 10) none none] [Event.finish sampleResult] none sampleState
    sampleRecord (by decide) rfl rfl rfl (by decide)
    (Or.inr ⟨Event.finish sampleResult, rfl, rfl⟩)

/-! ## C3 -/

/-- C3: for a tracked running job, after any sequence of progress_update
events followed by a `finish` event whose `translate_result` carries
`mono_pdf_path = "a.pdf"`, the final record has `status = "completed"`,
`progress = 100` and `result.mono_pdf_path = "a.pdf"`; the other result
fields default (`None` for an absent or empty path, `0` for absent
metrics) and the transition never fails. -/
theorem finish_completes_task (now tid : String) (pus : List Event) (st : ServerState)
    (r : TranslateResult)
    (htr : (st.active tid).isSome)
    (_hpus : ∀ e ∈ pus, e.isProgress = true)
    (hmono : r.mono_pdf_path = some "a.pdf") :
    ∃ rec', (run_translation now tid (pus ++ [Event.finish r]) none st).active tid = some rec' ∧
      rec'.status = "completed" ∧ rec'.progress = 100 ∧
      rec'.result = some
        { mono_pdf_path := some "a.pdf"
          dual_pdf_path := strIfTruthy r.dual_pdf_path
          total_seconds := r.total_seconds.getD 0
          peak_memory_usage := r.peak_memory_usage.getD 0 } := by
  obtain ⟨rec2, h2⟩ := Option.isSome_iff_exists.mp (active_runEvents_isSome now tid pus st htr)
  have hstep := active_step_some now tid (runEvents now tid st pus) (.finish r) rec2 h2
  have hrunfold : run_translation now tid (pus ++ [Event.finish r]) none st
      = step now tid (runEvents now tid st pus) (.finish r) := by
    simp [run_translation, runEvents, List.foldl_append]
  refine ⟨applyEventToRecord now rec2 (.finish r), by rw [hrunfold]; exact hstep, rfl, rfl, ?_⟩
  simp [applyEventToRecord, hmono, strIfTruthy]

/-- A `translate_result` carrying only `mono_pdf_path = "a.pdf"`, all
other fields absent. -/
def monoOnlyResult : TranslateResult :=
  { mono_pdf_path := some "a.pdf", dual_pdf_path := none,
    total_seconds := none, peak_memory_usage := none }

/-- The `result` record the code builds from `monoOnlyResult`. -/
def monoOnlyResultOut : ResultOut :=
  { mono_pdf_path := some "a.pdf", dual_pdf_path := none,
    total_seconds := 0, peak_memory_usage := 0 }

/-- C3 (witness): job `j1` of `sampleState`, progress events 0 and 50,
then `finish` with `mono_pdf_path = "a.pdf"` and no other result field. -/
theorem finish_completes_task_witness :
    ∃ rec', (run_translation "t1" "j1"
        ([Event.progress_update (some 0) none none, Event.progress_update (some 50) none none]
          ++ [Event.finish monoOnlyResult]) none
        sampleState).active "j1" = some rec' ∧
      rec'.status = "completed" ∧ rec'.progress = 100 ∧
      rec'.result = some monoOnlyResultOut :=
  finish_completes_task "t1" "j1"
    [Event.progress_update (some 0) none none, Event.progress_update (some 50) none none]
    sampleState monoOnlyResult (by decide) (by decide) rfl

/-! ## C4 -/

/-- C4 (counterexample): when the engine stream simply ends (here: one
progress event, then exhaustion, no exception) without the job having
completed, `run_translation` performs no terminal transition at all: job
`j2` is left with `status = "running"`, not `"error"`. -/
theorem ended_stream_leaves_running :
    statusAfter (run_translation "t1" "j2" [Event.progress_update (some 50) none none] none
        sampleState2) "j2" = some "running" ∧
      some "running" ≠ some "error" := by
  constructor
  · decide
  · decide

/-- C4 (amended): whenever consuming the engine stream raises an exception
with description `msg` (after any sequence of events), a still-tracked job
ends with `status = "error"`, the `error` field set to `msg` and
`end_time` set.  (A stream that ends normally without a terminal event
instead leaves the job `running`, per the counterexample.) -/
theorem exception_reaches_error_state (now tid msg : String) (events : List Event)
    (st : ServerState) (htr : (st.active tid).isSome) :
    ∃ rec', (run_translation now tid events (some msg) st).active tid = some rec' ∧
      rec'.status = "error" ∧ rec'.error = some msg ∧ rec'.end_time = some now := by
  obtain ⟨rec2, h2⟩ := Option.isSome_iff_exists.mp (active_runEvents_isSome now tid events st htr)
  exact ⟨{ rec2 with status := "error", error := some msg, end_time := some now },
    active_handleExn_some now tid msg (runEvents now tid st events) rec2 h2, rfl, rfl, rfl⟩

/-- C4 (witness): job `j2`, engine raises `"engine crashed"` after one
progress event. -/
theorem exception_reaches_error_state_witness :
    ∃ rec', (run_translation "t1" "j2" [Event.progress_update (some 10) none none]
        (some "engine crashed") sampleState2).active "j2" = some rec' ∧
      rec'.status = "error" ∧ rec'.error = some "engine crashed" ∧ rec'.end_time = some "t1" :=
  exception_reaches_error_state "t1" "j2" "engine crashed"
    [Event.progress_update (some 10) none none] sampleState2 (by decide)

/-! ## C10 -/

/-- C10: once a job is absent from the in-memory registry, consuming any
further engine events — including `finish` and `error` events and a stream
exception — leaves the entire server state untouched: no registry
mutation, no history upsert, no broadcast.  The durable history stays at
its last persisted snapshot. -/
theorem removed_job_frozen (now tid : String) (events : List Event) (exn : Option String)
    (st : ServerState) (h : st.active tid = none) :
    run_translation now tid events exn st = st := by
  have h1 := runEvents_not_tracked now tid events st h
  cases exn with
  | none => exact h1
  | some msg =>
    show handleExn now tid msg (runEvents now tid st events) = st
    rw [h1]
    exact handleExn_not_tracked now tid msg st h

/-- C10 (witness): a state tracking nothing stays literally unchanged
across finish/error events and a stream exception. -/
theorem removed_job_frozen_witness :
    run_translation "t1" "jx"
        [Event.progress_update (some 10) none none, Event.finish sampleResult, Event.error none]
        (some "boom") emptyState = emptyState :=
  removed_job_frozen "t1" "jx"
    [Event.progress_update (some 10) none none, Event.finish sampleResult, Event.error none]
    (some "boom") emptyState rfl

/-! ## C5 -/

/-- C5 (counterexample): `save_history` does not follow the claimed
write-new-temporary-then-atomically-replace discipline: its operation
trace (here for the payload `"[]"`) opens the target file itself for
truncating write, and contains no rename at all. -/
theorem save_history_no_temp_replace :
    ¬ writesViaTempThenReplace (save_history_ops "[]") HISTORY_FILE := by
  rintro ⟨-, h2⟩
  exact h2 (by simp [save_history_ops])

/-- C5 (amended): `save_history` persists by opening the backing file
itself in truncating mode and writing the serialized collection into it in
place — no temporary file and no rename is involved.  Consequently the
write is not atomic: between the truncating open and the write, a
concurrent reader of the backing file observes the empty content, which
differs both from the previous content and from the final content. -/
theorem save_history_in_place_truncate (old data : String) (hold : old ≠ "") :
    (∀ src tgt, FileOp.rename src tgt ∉ save_history_ops data) ∧
      (save_history_ops data).head? = some (FileOp.openTrunc HISTORY_FILE) ∧
      runOps (fun q => if q = HISTORY_FILE then some old else none)
        ((save_history_ops data).take 1) HISTORY_FILE = some "" ∧
      some "" ≠ (some old : Option String) ∧
      runOps (fun q => if q = HISTORY_FILE then some old else none)
        (save_history_ops data) HISTORY_FILE = some data := by
  refine ⟨?_, rfl, ?_, ?_, ?_⟩
  · intro src tgt
    simp [save_history_ops]
  · simp [save_history_ops, runOps, applyOp]
  · intro h
    exact hold (Option.some_injective _ h).symm
  · simp [save_history_ops, runOps, applyOp]

/-- C5 (witness): the amended theorem at previous content `"[]"` and
payload `"[ ]"`. -/
theorem save_history_in_place_truncate_witness :
    (∀ src tgt, FileOp.rename src tgt ∉ save_history_ops "[ ]") ∧
      (save_history_ops "[ ]").head? = some (FileOp.openTrunc HISTORY_FILE) ∧
      runOps (fun q => if q = HISTORY_FILE then some "[]" else none)
        ((save_history_ops "[ ]").take 1) HISTORY_FILE = some "" ∧
      some "" ≠ (some "[]" : Option String) ∧
      runOps (fun q => if q = HISTORY_FILE then some "[]" else none)
        (save_history_ops "[ ]") HISTORY_FILE = some "[ ]" :=
  save_history_in_place_truncate "[]" "[ ]" (by decide)

/-! ## C6 -/

/-- Number of history entries carrying a given `task_id`. -/
def countId (h : List TaskRecord) (id : String) : Nat :=
  h.countP (fun t => decide (t.task_id = id))

theorem mem_upsertEntry (h : List TaskRecord) (e : TaskRecord) : e ∈ upsertEntry h e := by
  induction h with
  | nil => simp [upsertEntry]
  | cons item rest ih =>
    unfold upsertEntry
    split
    · exact List.mem_cons_self _ _
    · exact List.mem_cons_of_mem _ ih

theorem countId_upsertEntry (h : List TaskRecord) (e : TaskRecord)
    (hle : countId h e.task_id ≤ 1) : countId (upsertEntry h e) e.task_id = 1 := by
  induction h with
  | nil => simp [upsertEntry, countId, List.countP_cons]
  | cons item rest ih =>
    unfold upsertEntry
    by_cases hid : item.task_id = e.task_id
    · rw [if_pos hid]
      have hcount : countId (item :: rest) e.task_id = countId rest e.task_id + 1 := by
        simp [countId, List.countP_cons, hid]
      have hr : countId rest e.task_id = 0 := by
        rw [hcount] at hle
        omega
      have hstep : countId (e :: rest) e.task_id = countId rest e.task_id + 1 := by
        simp [countId, List.countP_cons]
      rw [hstep, hr]
    · rw [if_neg hid]
      have hle' : countId rest e.task_id ≤ 1 := by
        simpa [countId, List.countP_cons, hid] using hle
      simp only [countId, List.countP_cons]
      simp only [countId] at ih
      simp [hid, ih hle']

/-- C6 (counterexample): `add_to_history` replaces only the *first* entry
whose `task_id` matches.  If the prior backing file already holds two
entries with `task_id = "j"`, upserting a record with that id leaves two
entries with that id, so "contains at most one entry with that job_id"
fails for this prior history state. -/
theorem upsert_keeps_prior_duplicate :
    ¬ countId
        (load_history
          (add_to_history
            (HistFile.wellFormed
              [{ sampleRecord with task_id := "j" }, { sampleRecord with task_id := "j" }])
            { sampleRecord with task_id := "j", filename := "new.pdf" }))
        "j" ≤ 1 := by
  decide

/-- C6 (amended): after `add_to_history e`, a subsequent `load_history`
yields a collection containing `e`; and provided the prior history held at
most one entry with `e`'s `task_id` (as is the case for every history the
store itself maintains), the result holds exactly one entry with that id. -/
theorem upsert_then_load_contains (f : HistFile) (e : TaskRecord)
    (hprior : countId (load_history f) e.task_id ≤ 1) :
    e ∈ load_history (add_to_history f e) ∧
      countId (load_history (add_to_history f e)) e.task_id = 1 := by
  show e ∈ upsertEntry (load_history f) e ∧ countId (upsertEntry (load_history f) e) e.task_id = 1
  exact ⟨mem_upsertEntry _ e, countId_upsertEntry _ e hprior⟩

/-- C6 (witness): upserting into a well-formed history holding one other
job and one prior snapshot of `j1`. -/
theorem upsert_then_load_contains_witness :
    sampleRecord ∈ load_history
        (add_to_history
          (HistFile.wellFormed
            [{ sampleRecord with task_id := "j0" }, { sampleRecord with progress := 50 }])
          sampleRecord) ∧
      countId
        (load_history
          (add_to_history
            (HistFile.wellFormed
              [{ sampleRecord with task_id := "j0" }, { sampleRecord with progress := 50 }])
            sampleRecord))
        "j1" = 1 :=
  upsert_then_load_contains
    (HistFile.wellFormed
      [{ sampleRecord with task_id := "j0" }, { sampleRecord with progress := 50 }])
    sampleRecord (by decide)

/-! ## C8 -/

/-- C8: `load_history` on a missing backing file, or on one whose contents
`json.load` cannot parse, returns the empty list; the parse failure is
caught inside `load_history` (the `Except.error` of `json_load` is mapped
to `[]`), so no exception escapes. -/
theorem load_history_graceful (f : HistFile)
    (h : f = HistFile.missing ∨ ∃ raw, f = HistFile.corrupt raw) :
    load_history f = [] := by
  rcases h with h | ⟨raw, h⟩ <;> subst h <;> rfl

/-- C8 (witness): a missing file and a concrete unparseable file. -/
theorem load_history_graceful_witness :
    load_history HistFile.missing = [] ∧ load_history (HistFile.corrupt "not-json") = [] :=
  ⟨load_history_graceful HistFile.missing (Or.inl rfl),
    load_history_graceful (HistFile.corrupt "not-json") (Or.inr ⟨"not-json", rfl⟩)⟩

/-! ## C7 -/

/-- History entry started in 2024. -/
def earlyRecord : TaskRecord :=
  { sampleRecord with task_id := "jA", start_time := "2024-01-01T00:00:00" }

/-- History entry started in 2025 (more recent than `earlyRecord`). -/
def lateRecord : TaskRecord :=
  { sampleRecord with task_id := "jB", start_time := "2025-01-01T00:00:00" }

/-- C7 (counterexample): `load_history` performs no sorting, it returns
the backing file's order.  On a file holding the older entry first, the
result is not sorted most-recent-first by `start_time`. -/
theorem load_history_not_sorted :
    ¬ List.Sorted (fun a b : TaskRecord => b.start_time ≤ a.start_time)
        (load_history (HistFile.wellFormed [earlyRecord, lateRecord])) := by
  intro h
  have h1 : lateRecord.start_time ≤ earlyRecord.start_time :=
    (List.sorted_cons.mp h).1 lateRecord (by simp)
  have h2 : ¬ (("2025-01-01T00:00:00" : String) ≤ "2024-01-01T00:00:00") :=
    not_le.mpr (by rw [String.lt_iff_toList_lt]; decide)
  exact h2 h1

/-- C7 (amended): `load_history` returns the entries in backing-file
order; it is the listing endpoint `list_translations` that returns the
collection sorted most-recent-first by `start_time` — its output is
sorted descending by `start_time` and is a permutation of the loaded
history. -/
theorem list_translations_sorted_desc (fsize : String → Option Nat) (f : HistFile) :
    List.Sorted (fun a b : ListedTask => b.task.start_time ≤ a.task.start_time)
        (list_translations fsize f) ∧
      ((list_translations fsize f).map ListedTask.task).Perm (load_history f) := by
  constructor
  · have hp := @List.sorted_mergeSort ListedTask
      (fun a b => decide (b.task.start_time ≤ a.task.start_time))
      (fun a b c hab hbc => by
        simp only [decide_eq_true_eq] at hab hbc ⊢
        exact le_trans hbc hab)
      (fun a b => by
        simp only [Bool.or_eq_true, decide_eq_true_eq]
        exact le_total _ _)
      ((load_history f).map
        (fun task => { task := task, file_status := computeFileStatus fsize task }))
    refine List.Pairwise.imp ?_ hp
    intro a b hab
    simpa using hab
  · have h2 := (List.mergeSort_perm
      ((load_history f).map
        (fun task => ({ task := task, file_status := computeFileStatus fsize task } : ListedTask)))
      (fun a b : ListedTask => decide (b.task.start_time ≤ a.task.start_time))).map
        ListedTask.task
    have h3 : List.map ListedTask.task
        ((load_history f).map
          (fun task => ({ task := task, file_status := computeFileStatus fsize task } : ListedTask)))
        = load_history f := by
      rw [List.map_map]
      exact List.map_id _
    rw [← h3]
    exact h2

/-! ## C9 -/

/-- The `errors` item that the deletion loop produces for one path, if
any: a `permission_error` for a `PermissionError`, an `unknown_error` for
any other non-`FileNotFoundError` failure. -/
def errorItemOf (unlink : String → UnlinkOutcome) (p : String) : Option ReportItem :=
  match unlink p with
  | .ok => none
  | .permissionDenied _ => some
    { type := "permission_error", file := p,
      message := "文件被占用无法删除: " ++ pathName p, detail := none }
  | .fileMissing _ => none
  | .otherFailure msg => some
    { type := "unknown_error", file := p,
      message := "删除文件时发生未知错误: " ++ pathName p, detail := some msg }

/-- The `warnings` item produced for one path, if any: a `file_not_found`
warning for a `FileNotFoundError`. -/
def warningItemOf (unlink : String → UnlinkOutcome) (p : String) : Option ReportItem :=
  match unlink p with
  | .fileMissing _ => some
    { type := "file_not_found", file := p,
      message := "文件已不存在: " ++ pathName p, detail := none }
  | _ => none

theorem deleteLoop_deleted (unlink : String → UnlinkOutcome) (l : List String) :
    ∀ acc : CleanupReport, (l.foldl (deleteStep unlink) acc).deleted_files
      = acc.deleted_files + l.countP (fun p => (unlink p).isOk) := by
  induction l with
  | nil => intro acc; simp
  | cons p l ih =>
    intro acc
    rw [List.foldl_cons, ih, List.countP_cons]
    cases hout : unlink p with
    | ok =>
      simp only [deleteStep, hout, UnlinkOutcome.isOk, if_true]
      omega
    | permissionDenied m => simp [deleteStep, hout, UnlinkOutcome.isOk]
    | fileMissing m => simp [deleteStep, hout, UnlinkOutcome.isOk]
    | otherFailure m => simp [deleteStep, hout, UnlinkOutcome.isOk]

theorem deleteLoop_errors (unlink : String → UnlinkOutcome) (l : List String) :
    ∀ acc : CleanupReport, (l.foldl (deleteStep unlink) acc).errors
      = acc.errors ++ l.filterMap (errorItemOf unlink) := by
  induction l with
  | nil => intro acc; simp
  | cons p l ih =>
    intro acc
    rw [List.foldl_cons, ih, List.filterMap_cons]
    cases hout : unlink p <;> simp [deleteStep, hout, errorItemOf]

theorem deleteLoop_warnings (unlink : String → UnlinkOutcome) (l : List String) :
    ∀ acc : CleanupReport, (l.foldl (deleteStep unlink) acc).warnings
      = acc.warnings ++ l.filterMap (warningItemOf unlink) := by
  induction l with
  | nil => intro acc; simp
  | cons p l ih =>
    intro acc
    rw [List.foldl_cons, ih, List.filterMap_cons]
    cases hout : unlink p <;> simp [deleteStep, hout, warningItemOf]

theorem deleteLoop_orphans (unlink : String → UnlinkOutcome) (l : List String) :
    ∀ acc : CleanupReport, (l.foldl (deleteStep unlink) acc).orphan_files = acc.orphan_files := by
  induction l with
  | nil => intro acc; simp
  | cons p l ih =>
    intro acc
    rw [List.foldl_cons, ih]
    cases hout : unlink p <;> simp [deleteStep, hout]

/-- C9: with file deletion requested, every orphan file's deletion is
attempted independently and classified into the report — `deleted_files`
counts exactly the successful unlinks, `errors` holds exactly one
`permission_error` item per `PermissionError` and one `unknown_error` item
per unclassified failure, `warnings` holds exactly one `file_not_found`
item per already-missing file — and no failure aborts the rest of the
batch (the characterization covers the whole orphan list). -/
theorem cleanup_deletions_classified (req : CleanupRequest) (f : HistFile)
    (existing : List String) (fsExists : String → Bool) (unlink : String → UnlinkOutcome)
    (hflag : req.delete_orphan_files = true) :
    ((cleanup_files req f existing fsExists unlink).1.deleted_files
        = ((cleanup_files req f existing fsExists unlink).1.orphan_files.countP
            (fun p => (unlink p).isOk))) ∧
      ((cleanup_files req f existing fsExists unlink).1.errors
        = (cleanup_files req f existing fsExists unlink).1.orphan_files.filterMap
            (errorItemOf unlink)) ∧
      ((cleanup_files req f existing fsExists unlink).1.warnings
        = (cleanup_files req f existing fsExists unlink).1.orphan_files.filterMap
            (warningItemOf unlink)) := by
  unfold cleanup_files
  rw [hflag]
  simp only [if_true]
  split
  · split
    · refine ⟨?_, ?_, ?_⟩ <;>
        simp [deleteLoop_deleted, deleteLoop_errors, deleteLoop_warnings, deleteLoop_orphans]
    · refine ⟨?_, ?_, ?_⟩ <;>
        simp [deleteLoop_deleted, deleteLoop_errors, deleteLoop_warnings, deleteLoop_orphans]
  · refine ⟨?_, ?_, ?_⟩ <;>
      simp [deleteLoop_deleted, deleteLoop_errors, deleteLoop_warnings, deleteLoop_orphans]

/-- A concrete unlink behaviour: one success, one `PermissionError`, one
`FileNotFoundError`, one unclassified failure. -/
def sampleUnlink : String → UnlinkOutcome := fun p =>
  if p = "outputs/a.pdf" then .ok
  else if p = "outputs/b.pdf" then .permissionDenied "busy"
  else if p = "outputs/c.pdf" then .fileMissing "gone"
  else .otherFailure "disk full"

/-- Concrete scan result of the outputs directory. -/
def sampleExisting : List String :=
  ["outputs/a.pdf", "outputs/b.pdf", "outputs/c.pdf", "outputs/d.pdf"]

/-- C9 (witness): cleanup over an empty history and four orphan files with
the four unlink outcomes of `sampleUnlink`. -/
theorem cleanup_deletions_classified_witness :
    ((cleanup_files ⟨true, false⟩ (HistFile.wellFormed []) sampleExisting (fun _ => false)
          sampleUnlink).1.deleted_files
        = ((cleanup_files ⟨true, false⟩ (HistFile.wellFormed []) sampleExisting (fun _ => false)
            sampleUnlink).1.orphan_files.countP (fun p => (sampleUnlink p).isOk))) ∧
      ((cleanup_files ⟨true, false⟩ (HistFile.wellFormed []) sampleExisting (fun _ => false)
          sampleUnlink).1.errors
        = (cleanup_files ⟨true, false⟩ (HistFile.wellFormed []) sampleExisting (fun _ => false)
            sampleUnlink).1.orphan_files.filterMap (errorItemOf sampleUnlink)) ∧
      ((cleanup_files ⟨true, false⟩ (HistFile.wellFormed []) sampleExisting (fun _ => false)
          sampleUnlink).1.warnings
        = (cleanup_files ⟨true, false⟩ (HistFile.wellFormed []) sampleExisting (fun _ => false)
            sampleUnlink).1.orphan_files.filterMap (warningItemOf sampleUnlink)) :=
  cleanup_deletions_classified ⟨true, false⟩ (HistFile.wellFormed []) sampleExisting
    (fun _ => false) sampleUnlink rfl

end EasyBabelDOC
